import Mathlib

/-!
Shallow embedding of src/catch/unit/texture/hipTextureMipmapObj1D.cc: the 1D
mipmap synthesis loop, the two device kernels, and the verification driver,
together with the reference sampling model of the specification (the device
sampler and the helpers of hip_texture_helper.hh are external to the source
file; they are modelled from the spec and marked as such).  Real-valued
device arithmetic is modelled over ℚ.  A PixelValue is modelled as a single
ℚ channel: the source processes each channel of a texel independently, so
one channel carries all the algorithmic content of the claims.
-/

namespace HipTextureMipmapObj1D

/-- hipTextureAddressMode as instantiated by the test: Clamp / Border. -/
inductive AddressingMode
  | clamp
  | border
deriving DecidableEq

/-- hipTextureFilterMode: hipFilterModePoint (nearest) / hipFilterModeLinear. -/
inductive FilterMode
  | point
  | linear
deriving DecidableEq

/-- hipTextureReadMode: hipReadModeElementType / hipReadModeNormalizedFloat. -/
inductive ReadMode
  | elementType
  | normalizedFloat
deriving DecidableEq

/-- A texture level: its texels, one ℚ channel each.  The level's width is
passed separately alongside the data, exactly as the source passes a width
argument next to every data pointer. -/
abbrev Level := List ℚ

/-- Modelled from the spec: the Addressing Resolver (§4.1); the addressing
logic itself lives in the GPU sampler and hip_texture_helper.hh, which are
not under src.  Clamp saturates the index into [0, width-1]; Border yields
none for an out-of-range index and the caller substitutes the zero-valued
border sample. -/
def resolve (index width : ℤ) (mode : AddressingMode) : Option ℤ :=
  match mode with
  | .clamp => some (max 0 (min index (width - 1)))
  | .border => if 0 ≤ index ∧ index < width then some index else none

/-- Fetch one texel through the Addressing Resolver; a border read yields the
zero border value. -/
def texelAt (lvl : Level) (width : ℕ) (i : ℤ) (am : AddressingMode) : ℚ :=
  match resolve i width am with
  | some j => lvl.getD j.toNat 0
  | none => 0

/-- Modelled from the spec: nearest filtering (§4.2) at a normalized
coordinate: scale to texel units, floor, then resolve. -/
def sampleNearest (lvl : Level) (width : ℕ) (coord : ℚ) (am : AddressingMode) : ℚ :=
  texelAt lvl width ⌊coord * width⌋ am

/-- Modelled from the spec: linear filtering (§4.2) at a normalized
coordinate: the two nearest texels are resolved independently and blended by
the fractional position. -/
def sampleLinear (lvl : Level) (width : ℕ) (coord : ℚ) (am : AddressingMode) : ℚ :=
  let pos := coord * width - 1 / 2
  let i0 := ⌊pos⌋
  let frac := pos - i0
  (1 - frac) * texelAt lvl width i0 am + frac * texelAt lvl width (i0 + 1) am

/-- Modelled from the spec: the Filter Kernel (§4.2), dispatching on the
filter mode.  This is the meaning of a device texture fetch (tex1D) on a
texture with normalizedCoords = 1. -/
def sample (fm : FilterMode) (lvl : Level) (width : ℕ) (coord : ℚ)
    (am : AddressingMode) : ℚ :=
  match fm with
  | .point => sampleNearest lvl width coord am
  | .linear => sampleLinear lvl width coord am

/-- Modelled from the spec: the Level-of-Detail Reference Model (§4.3): the
test always samples at an exact integer lod, which dispatches the Filter
Kernel to that level of the chain.  This is the meaning of tex1DLod. -/
def sampleAtLevel (chain : List Level) (coord : ℚ) (lod : ℕ) (fm : FilterMode)
    (am : AddressingMode) : ℚ :=
  let lvl := chain.getD lod []
  sample fm lvl lvl.length coord am

/-- Modelled from the spec: NormalizedFloat read of an n-bit unsigned channel
rescales the stored integer to the float range [0,1] (§3, SampleFormat); the
concrete conversion (getNormalizedFloatType in hip_texture_helper.hh) is not
under src. -/
def getNormalizedFloatType (bits v : ℕ) : ℚ := (v : ℚ) / (2 ^ bits - 1)

/-- Embeds the populateMipmapNextLevelArray kernel (src lines 36-61): thread
x computes px = 1/width and, when x < width, fetches the source level texture
(normalizedCoords = 1, the configured filter and addressing modes) at
coordinate x * px and writes the result at element index x of the next-level
surface (surf1Dwrite at byte offset x * sizeof(T)) and of the recording
array; a thread with x ≥ width writes nothing.  For the
hipReadModeNormalizedFloat instantiation the fetch reads channel-converted
float data and the result is converted back to the storage type; conv and
deconv stand for getNormalizedFloatType / getTypeFromNormalizedFloat of
hip_texture_helper.hh. -/
def populateMipmapNextLevelArray (rm : ReadMode) (conv deconv : ℚ → ℚ)
    (fm : FilterMode) (am : AddressingMode) (src : Level) (srcWidth : ℕ)
    (width x : ℕ) : Option (ℕ × ℚ) :=
  let px : ℚ := 1 / width
  if x < width then
    match rm with
    | .elementType => some (x, sample fm src srcWidth ((x : ℚ) * px) am)
    | .normalizedFloat =>
        some (x, deconv (sample fm (src.map conv) srcWidth ((x : ℚ) * px) am))
  else none

/-- Embeds the getMipmap kernel (src lines 64-75): thread x samples the
mipmap texture at normalized coordinate (x + offsetX) * px at the given lod
when x < width and records the result at index x; a thread with x ≥ width
writes nothing. -/
def getMipmap (fm : FilterMode) (am : AddressingMode) (chain : List Level)
    (width x : ℕ) (offsetX : ℚ) (lod : ℕ) : Option (ℕ × ℚ) :=
  let px : ℚ := 1 / width
  if x < width then
    some (x, sampleAtLevel chain (((x : ℚ) + offsetX) * px) lod fm am)
  else none

/-- The next level width as computed at src line 98:
width = width >> 1 ? width >> 1 : 1. -/
def nextWidth (w : ℕ) : ℕ := if w >>> 1 = 0 then 1 else w >>> 1

theorem nextWidth_eq (w : ℕ) : nextWidth w = max 1 (w / 2) := by
  simp only [nextWidth, Nat.shiftRight_one]
  split <;> omega

theorem one_le_nextWidth (w : ℕ) : 1 ≤ nextWidth w := by
  rw [nextWidth_eq]; omega

theorem nextWidth_lt (w : ℕ) (h : 2 ≤ w) : nextWidth w < w := by
  rw [nextWidth_eq]; omega

theorem nextWidth_of_two_le (w : ℕ) (h : 2 ≤ w) : nextWidth w = w / 2 := by
  rw [nextWidth_eq]; omega

/-- Widths of the levels derived by the populateMipmaps loop (src lines
85-151) from a base width w: one new level per iteration, until the running
width reaches 1. -/
def synthWidths (w : ℕ) : List ℕ :=
  if w = 1 then [] else nextWidth w :: synthWidths (nextWidth w)
termination_by (if w = 0 then 2 else w)
decreasing_by
  have h1 := one_le_nextWidth w
  have h2 := nextWidth_eq w
  split <;> split <;> omega

/-- Widths of the full mipmap chain: level 0 (recorded by
testMipmapTextureObj at src line 218) followed by the synthesized levels. -/
def chainWidths (w : ℕ) : List ℕ := w :: synthWidths w

theorem synthWidths_one : synthWidths 1 = [] := by
  rw [synthWidths]
  simp

theorem synthWidths_of_ne_one (w : ℕ) (h : w ≠ 1) :
    synthWidths w = nextWidth w :: synthWidths (nextWidth w) := by
  rw [synthWidths]
  simp [h]

theorem chainWidths_cons (w : ℕ) (h : w ≠ 1) :
    chainWidths w = w :: chainWidths (nextWidth w) := by
  rw [chainWidths, chainWidths, synthWidths_of_ne_one w h]

theorem chainWidths_one : chainWidths 1 = [1] := by
  rw [chainWidths, synthWidths_one]

/-- The context printed when a level size reported by the runtime disagrees
with the loop's running width (src lines 92-96 and 102-106): the level index,
the width the allocator reported for it, and the width the loop expected. -/
structure ContractViolation where
  level : ℕ
  reported : ℕ
  expected : ℕ
deriving DecidableEq

/-- Embeds the populateMipmaps loop (src lines 85-151), with the external
allocator abstracted by the widths it reports per level (hipArrayGetInfo on
each hipGetMipmappedArrayLevel result).  Each iteration fetches the current
and next level, checks both reported widths against the loop's own halving
formula, and derives the next level; a disagreeing report hits
REQUIRE(false), modelled as an error that ends the run with the printed
context.  The value returned on success is the list of derived level
widths. -/
def populateMipmaps (alloc : ℕ → ℕ) (width level : ℕ) :
    Except ContractViolation (List ℕ) :=
  if width = 1 then .ok []
  else if alloc level ≠ width then .error ⟨level, alloc level, width⟩
  else
    let width' := nextWidth width
    if alloc (level + 1) ≠ width' then .error ⟨level + 1, alloc (level + 1), width'⟩
    else
      match populateMipmaps alloc width' (level + 1) with
      | .error e => .error e
      | .ok rest => .ok (width' :: rest)
termination_by (if width = 0 then 2 else width)
decreasing_by
  have h1 := one_le_nextWidth width
  have h2 := nextWidth_eq width
  split <;> split <;> omega

/-- Whether the verified element type stores integers or floating-point /
normalized values; decides the comparison rule of §4.5. -/
inductive Storage
  | integer
  | floating
deriving DecidableEq

/-- Modelled from the spec: hipTextureSamplingVerify of hip_texture_helper.hh
(not under src): exact equality for integer storage, tolerance-bounded
equality for floating-point / normalized storage (§4.5). -/
def hipTextureSamplingVerify (st : Storage) (tol gpuOutput cpuExpected : ℚ) :
    Bool :=
  match st with
  | .integer => decide (gpuOutput = cpuExpected)
  | .floating => decide (|gpuOutput - cpuExpected| ≤ tol)

/-- Modelled from the spec: getExpectedValue of hip_texture_helper.hh (not
under src): the reference sample of the level data at texel-space coordinate
x (the trailing false template argument selects non-normalized coordinate
input, i.e. normalized coordinate x / width), per §4.2 and §4.5. -/
def getExpectedValue (fm : FilterMode) (am : AddressingMode) (width : ℕ)
    (x : ℚ) (data : Level) : ℚ :=
  sample fm data width (x / width) am

/-- One comparison of the verifyMipmapLevel loop (src lines 172-174): the
observed device sample at index i against the CPU expected value at
coordinate i + offsetX. -/
def checkIndex (st : Storage) (tol : ℚ) (fm : FilterMode)
    (am : AddressingMode) (observed : ℕ → ℚ) (data : Level) (width : ℕ)
    (offsetX : ℚ) (i : ℕ) : Bool :=
  hipTextureSamplingVerify st tol (observed i)
    (getExpectedValue fm am width ((i : ℚ) + offsetX) data)

/-- The context reported on a mismatch (src lines 176-181): the level, the
index and the shifted coordinate i + offsetX, the device output, the CPU
expected value, and the source data at the index. -/
structure MismatchReport where
  level : ℚ
  index : ℕ
  coord : ℚ
  gpuOutput : ℚ
  cpuExpected : ℚ
  sourceVal : ℚ
deriving DecidableEq

/-- The verifyMipmapLevel loop from index i with n indices remaining: the
first mismatching index is reported with its context and REQUIRE(false) ends
the test case, modelled as an error; a matching index continues the loop. -/
def verifyFrom (st : Storage) (tol : ℚ) (fm : FilterMode)
    (am : AddressingMode) (observed : ℕ → ℚ) (data : Level) (width : ℕ)
    (level offsetX : ℚ) : ℕ → ℕ → Except MismatchReport Unit
  | _, 0 => .ok ()
  | i, n + 1 =>
    if checkIndex st tol fm am observed data width offsetX i then
      verifyFrom st tol fm am observed data width level offsetX (i + 1) n
    else
      .error ⟨level, i, (i : ℚ) + offsetX, observed i,
        getExpectedValue fm am width ((i : ℚ) + offsetX) data, data.getD i 0⟩

/-- Embeds verifyMipmapLevel (src lines 157-191): the observed device samples
(hOutput, written by the getMipmap kernel) are compared against the CPU
expected values for every index in [0, width). -/
def verifyMipmapLevel (st : Storage) (tol : ℚ) (fm : FilterMode)
    (am : AddressingMode) (observed : ℕ → ℚ) (data : Level) (width : ℕ)
    (level offsetX : ℚ) : Except MismatchReport Unit :=
  verifyFrom st tol fm am observed data width level offsetX 0 width

theorem nextWidth_eq_shiftRight (w : ℕ) : nextWidth w = max 1 (w >>> 1) := by
  rw [nextWidth_eq, Nat.shiftRight_one]

theorem synthWidths_length : ∀ w, 1 ≤ w → (synthWidths w).length = Nat.log2 w := by
  intro w
  induction w using Nat.strong_induction_on with
  | _ w ih =>
    intro hw
    rcases Nat.lt_or_ge w 2 with h2 | h2
    · have hw1 : w = 1 := by omega
      subst hw1
      rw [synthWidths_one, Nat.log2]
      simp
    · rw [synthWidths_of_ne_one w (by omega), List.length_cons,
        ih (nextWidth w) (nextWidth_lt w h2) (one_le_nextWidth w),
        nextWidth_of_two_le w h2]
      conv_rhs => rw [Nat.log2]
      rw [if_pos h2]

theorem chainWidths_head (w : ℕ) : (chainWidths w).getD 0 0 = w := rfl

theorem chainWidths_expand (w : ℕ) :
    chainWidths w = w :: synthWidths w := rfl

theorem chainWidths_getLast? : ∀ w, 1 ≤ w → (chainWidths w).getLast? = some 1 := by
  intro w
  induction w using Nat.strong_induction_on with
  | _ w ih =>
    intro hw
    rcases Nat.lt_or_ge w 2 with h2 | h2
    · have hw1 : w = 1 := by omega
      subst hw1
      rw [chainWidths_one]
      rfl
    · rw [chainWidths_cons w (by omega), chainWidths_expand (nextWidth w),
        List.getLast?_cons_cons, ← chainWidths_expand (nextWidth w)]
      exact ih (nextWidth w) (nextWidth_lt w h2) (one_le_nextWidth w)

theorem chainWidths_getD_succ : ∀ w, 1 ≤ w → ∀ k, k + 1 < (chainWidths w).length →
    (chainWidths w).getD (k + 1) 0 = max 1 ((chainWidths w).getD k 0 >>> 1) := by
  intro w
  induction w using Nat.strong_induction_on with
  | _ w ih =>
    intro hw k hk
    rcases Nat.lt_or_ge w 2 with h2 | h2
    · have hw1 : w = 1 := by omega
      subst hw1
      rw [chainWidths_one] at hk
      simp at hk
    · rw [chainWidths_cons w (by omega)] at hk ⊢
      cases k with
      | zero =>
        rw [List.getD_cons_succ, List.getD_cons_zero, chainWidths_head]
        exact nextWidth_eq_shiftRight w
      | succ k =>
        rw [List.getD_cons_succ, List.getD_cons_succ]
        exact ih (nextWidth w) (nextWidth_lt w h2) (one_le_nextWidth w) k
          (by simpa using hk)

/-- C2: for every base width ≥ 1, the synthesized mipmap chain (level 0
recorded by testMipmapTextureObj plus one level per populateMipmaps
iteration) has exactly 1 + floor(log2 baseWidth) levels, and the final level
has width 1. -/
theorem chain_length_law (baseWidth : ℕ) (h : 1 ≤ baseWidth) :
    (chainWidths baseWidth).length = 1 + Nat.log2 baseWidth ∧
    (chainWidths baseWidth).getLast? = some 1 := by
  refine ⟨?_, chainWidths_getLast? baseWidth h⟩
  rw [chainWidths_expand, List.length_cons, synthWidths_length baseWidth h]
  omega

/-- Witness for C2 at base width 23 (spec scenario 1: five levels). -/
theorem chain_length_law_witness :
    (chainWidths 23).length = 1 + Nat.log2 23 ∧
    (chainWidths 23).getLast? = some 1 :=
  chain_length_law 23 (by decide)

/-- C3: width(level 0) = baseWidth, every consecutive pair of levels of the
synthesized chain satisfies width(k+1) = max 1 (width k >>> 1), and the last
level has width 1. -/
theorem monotone_halving_law (baseWidth : ℕ) (h : 1 ≤ baseWidth) :
    (chainWidths baseWidth).getD 0 0 = baseWidth ∧
    (∀ k, k + 1 < (chainWidths baseWidth).length →
      (chainWidths baseWidth).getD (k + 1) 0 =
        max 1 ((chainWidths baseWidth).getD k 0 >>> 1)) ∧
    (chainWidths baseWidth).getLast? = some 1 :=
  ⟨chainWidths_head baseWidth, chainWidths_getD_succ baseWidth h,
    chainWidths_getLast? baseWidth h⟩

/-- Witness for C3 at base width 23. -/
theorem monotone_halving_law_witness :
    (chainWidths 23).getD 0 0 = 23 ∧
    (∀ k, k + 1 < (chainWidths 23).length →
      (chainWidths 23).getD (k + 1) 0 =
        max 1 ((chainWidths 23).getD k 0 >>> 1)) ∧
    (chainWidths 23).getLast? = some 1 :=
  monotone_halving_law 23 (by decide)

theorem iterate_nextWidth_log2 : ∀ w, 1 ≤ w → nextWidth^[Nat.log2 w] w = 1 := by
  intro w
  induction w using Nat.strong_induction_on with
  | _ w ih =>
    intro hw
    rcases Nat.lt_or_ge w 2 with h2 | h2
    · have hw1 : w = 1 := by omega
      subst hw1
      rw [Nat.log2]
      simp
    · have hl : Nat.log2 w = Nat.log2 (w / 2) + 1 := by
        conv_lhs => rw [Nat.log2]
        rw [if_pos h2]
      rw [hl, Function.iterate_succ_apply, nextWidth_of_two_le w h2]
      exact ih (w / 2) (by omega) (by omega)

/-- C9: the synthesis loop terminates: for any width ≥ 2 the update
width := (width >> 1 ? width >> 1 : 1) strictly decreases the width, after
floor(log2 baseWidth) updates the width is 1 (where the loop stops), and for
baseWidth = 1 no synthesis step runs at all. -/
theorem synthesis_loop_terminates (baseWidth : ℕ) (h : 1 ≤ baseWidth) :
    (2 ≤ baseWidth → nextWidth baseWidth < baseWidth) ∧
    nextWidth^[Nat.log2 baseWidth] baseWidth = 1 ∧
    (baseWidth = 1 → synthWidths baseWidth = []) :=
  ⟨nextWidth_lt baseWidth, iterate_nextWidth_log2 baseWidth h,
    fun h1 => h1 ▸ synthWidths_one⟩

/-- Witness for C9 at base width 23. -/
theorem synthesis_loop_terminates_witness :
    (2 ≤ 23 → nextWidth 23 < 23) ∧
    nextWidth^[Nat.log2 23] 23 = 1 ∧
    ((23 : ℕ) = 1 → synthWidths 23 = []) :=
  synthesis_loop_terminates 23 (by decide)

/-- C7: a NormalizedFloat read of an 8-bit unsigned channel maps the stored
value 255 to the float 1.0 and the stored value 0 to the float 0.0. -/
theorem normalizedFloat_u8_endpoints :
    getNormalizedFloatType 8 255 = 1 ∧ getNormalizedFloatType 8 0 = 0 := by
  constructor <;> norm_num [getNormalizedFloatType]

/-- C8: under Clamp the Addressing Resolver returns max 0 (min i (w - 1)),
and it is idempotent: resolving an already-resolved index changes nothing. -/
theorem resolve_clamp_idempotent (i w : ℤ) (h : 1 ≤ w) :
    resolve i w .clamp = some (max 0 (min i (w - 1))) ∧
    (resolve i w .clamp).bind (fun j => resolve j w .clamp) =
      resolve i w .clamp := by
  refine ⟨rfl, ?_⟩
  simp only [resolve, Option.some_bind, Option.some.injEq]
  omega

/-- Witness for C8 at i = -5, w = 3. -/
theorem resolve_clamp_idempotent_witness :
    resolve (-5) 3 .clamp = some (max 0 (min (-5) (3 - 1))) ∧
    (resolve (-5) 3 .clamp).bind (fun j => resolve j 3 .clamp) =
      resolve (-5) 3 .clamp :=
  resolve_clamp_idempotent (-5) 3 (by decide)

theorem populateMipmaps_of_ne_one (alloc : ℕ → ℕ) (w level : ℕ) (h : w ≠ 1) :
    populateMipmaps alloc w level =
      if alloc level ≠ w then .error ⟨level, alloc level, w⟩
      else if alloc (level + 1) ≠ nextWidth w then
        .error ⟨level + 1, alloc (level + 1), nextWidth w⟩
      else
        match populateMipmaps alloc (nextWidth w) (level + 1) with
        | .error e => .error e
        | .ok rest => .ok (nextWidth w :: rest) := by
  rw [populateMipmaps]
  simp [h]

theorem ne_one_of_chain_two_le (w : ℕ) (h : 2 ≤ (chainWidths w).length) :
    w ≠ 1 := by
  intro h1
  rw [h1, chainWidths_one] at h
  simp at h

theorem populateMipmaps_first_bad (alloc : ℕ → ℕ) :
    ∀ k w level, 2 ≤ w → k < (chainWidths w).length →
      alloc (level + k) ≠ (chainWidths w).getD k 0 →
      (∀ j, j < k → alloc (level + j) = (chainWidths w).getD j 0) →
      populateMipmaps alloc w level =
        .error ⟨level + k, alloc (level + k), (chainWidths w).getD k 0⟩ := by
  intro k
  induction k with
  | zero =>
    intro w level hw _ hbad _
    rw [chainWidths_head] at hbad ⊢
    rw [populateMipmaps_of_ne_one alloc w level (by omega), if_pos (by simpa using hbad)]
    simp
  | succ k ih =>
    intro w level hw hk hbad hprev
    have h0 : alloc level = w := by
      have := hprev 0 (by omega)
      rw [chainWidths_head] at this
      simpa using this
    rw [populateMipmaps_of_ne_one alloc w level (by omega),
      if_neg (by simpa using h0)]
    rw [chainWidths_cons w (by omega), List.getD_cons_succ] at hbad ⊢
    cases k with
    | zero =>
      rw [chainWidths_head] at hbad ⊢
      rw [if_pos (by simpa using hbad)]
    | succ k =>
      have h1 : alloc (level + 1) = nextWidth w := by
        have := hprev 1 (by omega)
        rw [chainWidths_cons w (by omega), List.getD_cons_succ,
          chainWidths_head] at this
        simpa using this
      rw [if_neg (by simpa using h1)]
      have hk' : k + 1 < (chainWidths (nextWidth w)).length := by
        rw [chainWidths_cons w (by omega), List.length_cons] at hk
        omega
      have hw' : 2 ≤ nextWidth w := by
        have := ne_one_of_chain_two_le (nextWidth w) (by omega)
        have := one_le_nextWidth w
        omega
      have hbad' : alloc (level + 1 + (k + 1)) ≠
          (chainWidths (nextWidth w)).getD (k + 1) 0 := by
        have : level + 1 + (k + 1) = level + (k + 1 + 1) := by omega
        rw [this]
        exact hbad
      have hprev' : ∀ j, j < k + 1 →
          alloc (level + 1 + j) = (chainWidths (nextWidth w)).getD j 0 := by
        intro j hj
        have := hprev (j + 1) (by omega)
        rw [chainWidths_cons w (by omega), List.getD_cons_succ] at this
        have harith : level + 1 + j = level + (j + 1) := by omega
        rw [harith]
        exact this
      rw [ih (nextWidth w) (level + 1) hw' hk' hbad' hprev']
      have : level + 1 + (k + 1) = level + (k + 1 + 1) := by omega
      rw [this]

/-- C4: if during synthesis the external allocator first reports a level
width inconsistent with the halving formula at chain index k, the
populateMipmaps loop hits REQUIRE(false) and the run ends at once with the
ContractViolation context for that level; no chain is produced and nothing
is retried. -/
theorem allocator_contract_violation_fatal (alloc : ℕ → ℕ) (w k : ℕ)
    (hw : 2 ≤ w) (hk : k < (chainWidths w).length)
    (hbad : alloc k ≠ (chainWidths w).getD k 0)
    (hfst : ∀ j, j < k → alloc j = (chainWidths w).getD j 0) :
    populateMipmaps alloc w 0 = .error ⟨k, alloc k, (chainWidths w).getD k 0⟩ ∧
    ∀ widths, populateMipmaps alloc w 0 ≠ .ok widths := by
  have h := populateMipmaps_first_bad alloc k w 0 hw hk (by simpa using hbad)
    (by simpa using hfst)
  rw [Nat.zero_add] at h
  exact ⟨h, by rw [h]; simp⟩

/-- Witness for C4: base width 4 (chain widths [4, 2, 1]) with an allocator
that reports 7 for every level past level 0; synthesis errors at level 1. -/
theorem allocator_contract_violation_fatal_witness :
    populateMipmaps (fun k => if k = 0 then 4 else 7) 4 0 =
      .error ⟨1, (fun k => if k = 0 then 4 else 7) 1, (chainWidths 4).getD 1 0⟩ ∧
    ∀ widths, populateMipmaps (fun k => if k = 0 then 4 else 7) 4 0 ≠ .ok widths := by
  have hc : chainWidths 4 = [4, 2, 1] := by
    rw [chainWidths_expand]
    simp [synthWidths, nextWidth]
  exact allocator_contract_violation_fatal (fun k => if k = 0 then 4 else 7) 4 1
    (by decide) (by rw [hc]; decide) (by rw [hc]; decide)
    (by rw [hc]; decide)

/-- C1 counterexample: the synthesis kernel does not sample at normalized
coordinate (j + 0.5) / newWidth with Nearest filtering under Clamp.  First:
with base level [0,1,2,3] (width 4) and new width 2, output texel 1 samples
at 1/2 (source texel 2, value 2) while the claimed rule picks texel 3
(value 3).  Second: instantiated with hipFilterModeLinear the kernel blends
texels 1 and 2 (value 4), not the claimed nearest sample.  Third:
instantiated with hipAddressModeBorder and new width 1, thread 0 blends a
zero border into the result (value 4), which clamp addressing would not. -/
theorem populate_coordinate_counterexample :
    populateMipmapNextLevelArray .elementType id id .point .clamp
        [0, 1, 2, 3] 4 2 1 ≠
      some (1, sample .point [0, 1, 2, 3] 4 (((1 : ℚ) + 1 / 2) / 2) .clamp) ∧
    populateMipmapNextLevelArray .elementType id id .linear .clamp
        [0, 8, 0, 8] 4 2 1 ≠
      some (1, sample .point [0, 8, 0, 8] 4 (((1 : ℚ) + 1 / 2) / 2) .clamp) ∧
    populateMipmapNextLevelArray .elementType id id .linear .border
        [8, 8] 2 1 0 ≠
      some (0, sample .point [8, 8] 2 (((0 : ℚ) + 1 / 2) / 1) .clamp) := by
  have a1 : populateMipmapNextLevelArray .elementType id id .point .clamp
      [0, 1, 2, 3] 4 2 1 = some (1, 2) := by
    simp [populateMipmapNextLevelArray, sample, sampleNearest, texelAt, resolve]
    norm_num
    rfl
  have b1 : sample .point [0, 1, 2, 3] 4 (((1 : ℚ) + 1 / 2) / 2) .clamp = 3 := by
    simp [sample, sampleNearest, texelAt, resolve]
    norm_num
    rfl
  have a2 : populateMipmapNextLevelArray .elementType id id .linear .clamp
      [0, 8, 0, 8] 4 2 1 = some (1, 4) := by
    simp [populateMipmapNextLevelArray, sample, sampleLinear, texelAt, resolve]
    simp only [Int.fract]
    norm_num
    rfl
  have b2 : sample .point [0, 8, 0, 8] 4 (((1 : ℚ) + 1 / 2) / 2) .clamp = 8 := by
    simp [sample, sampleNearest, texelAt, resolve]
    norm_num
    rfl
  have a3 : populateMipmapNextLevelArray .elementType id id .linear .border
      [8, 8] 2 1 0 = some (0, 4) := by
    simp [populateMipmapNextLevelArray, sample, sampleLinear, texelAt, resolve]
    simp only [Int.fract]
    norm_num
  have b3 : sample .point [8, 8] 2 (((0 : ℚ) + 1 / 2) / 1) .clamp = 8 := by
    simp [sample, sampleNearest, texelAt, resolve]
  rw [a1, b1, a2, b2, a3, b3]
  refine ⟨?_, ?_, ?_⟩ <;> decide

/-- C1 amended: each output texel j < newWidth of the new level is produced
by sampling level k at normalized coordinate j / newWidth (not (j+0.5) /
newWidth) with normalized coordinates enabled, under the configured filter
and addressing modes (hipFilterModePoint and hipAddressModeClamp by
default); an ElementType read samples the stored values directly, a
NormalizedFloat read samples the converted values and converts the result
back to the storage type. -/
theorem populate_samples_at_configured_modes (rm : ReadMode)
    (conv deconv : ℚ → ℚ) (fm : FilterMode) (am : AddressingMode)
    (src : Level) (srcWidth width x : ℕ) (hx : x < width) :
    populateMipmapNextLevelArray rm conv deconv fm am src srcWidth width x =
      some (x, match rm with
        | .elementType => sample fm src srcWidth ((x : ℚ) / width) am
        | .normalizedFloat =>
            deconv (sample fm (src.map conv) srcWidth ((x : ℚ) / width) am)) := by
  simp only [populateMipmapNextLevelArray, if_pos hx]
  cases rm <;> simp [div_eq_mul_inv]

/-- Witness for the amended C1 at the first counterexample input. -/
theorem populate_samples_at_configured_modes_witness :
    populateMipmapNextLevelArray .elementType id id .point .clamp
        [0, 1, 2, 3] 4 2 1 =
      some (1, sample .point [0, 1, 2, 3] 4 (((1 : ℕ) : ℚ) / 2) .clamp) :=
  populate_samples_at_configured_modes .elementType id id .point .clamp
    [0, 1, 2, 3] 4 2 1 (by decide)

/-- C5: the verification driver computes its expected value for texel i of a
level as the reference sample of that level's data at normalized coordinate
(i + offset) / width (the source passes texel-space i + offsetX alongside
the width), and compares the observed device sample to it exactly for
integer storage and within a tolerance for floating-point or normalized
storage. -/
theorem verify_reference_comparison (st : Storage) (tol : ℚ) (fm : FilterMode)
    (am : AddressingMode) (chain : List Level) (lod : ℕ) (offsetX : ℚ)
    (observed : ℕ → ℚ) (width i : ℕ)
    (hw : width = (chain.getD lod []).length) (hi : i < width) :
    getExpectedValue fm am width ((i : ℚ) + offsetX) (chain.getD lod []) =
      sampleAtLevel chain (((i : ℚ) + offsetX) / width) lod fm am ∧
    (checkIndex st tol fm am observed (chain.getD lod []) width offsetX i = true ↔
      match st with
      | .integer =>
          observed i =
            getExpectedValue fm am width ((i : ℚ) + offsetX) (chain.getD lod [])
      | .floating =>
          |observed i -
            getExpectedValue fm am width ((i : ℚ) + offsetX) (chain.getD lod [])|
            ≤ tol) := by
  constructor
  · subst hw
    rfl
  · cases st <;> simp [checkIndex, hipTextureSamplingVerify]

/-- Witness for C5: level data [3, 7] at lod 0, index 1, zero offset,
integer storage, with the observed sample agreeing with the reference. -/
theorem verify_reference_comparison_witness :
    getExpectedValue .point .clamp 2 (((1 : ℕ) : ℚ) + 0) ([[3, 7]].getD 0 []) =
      sampleAtLevel [[3, 7]] ((((1 : ℕ) : ℚ) + 0) / 2) 0 .point .clamp ∧
    (checkIndex .integer 0 .point .clamp (fun _ => 7) ([[3, 7]].getD 0 [])
        2 0 1 = true ↔
      (fun _ => (7 : ℚ)) 1 =
        getExpectedValue .point .clamp 2 (((1 : ℕ) : ℚ) + 0) ([[3, 7]].getD 0 [])) :=
  verify_reference_comparison .integer 0 .point .clamp [[3, 7]] 0 0
    (fun _ => 7) 2 1 rfl (by decide)

theorem verifyFrom_ok_iff (st : Storage) (tol : ℚ) (fm : FilterMode)
    (am : AddressingMode) (observed : ℕ → ℚ) (data : Level) (width : ℕ)
    (level offsetX : ℚ) :
    ∀ n i, verifyFrom st tol fm am observed data width level offsetX i n = .ok () ↔
      ∀ k, k < n → checkIndex st tol fm am observed data width offsetX (i + k) = true := by
  intro n
  induction n with
  | zero =>
    intro i
    simp [verifyFrom]
  | succ n ih =>
    intro i
    by_cases hc : checkIndex st tol fm am observed data width offsetX i = true
    · rw [verifyFrom, if_pos hc, ih (i + 1)]
      constructor
      · intro h k hk
        cases k with
        | zero => simpa using hc
        | succ k =>
          have := h k (by omega)
          have harith : i + 1 + k = i + (k + 1) := by omega
          rw [harith] at this
          exact this
      · intro h k hk
        have := h (k + 1) (by omega)
        have harith : i + (k + 1) = i + 1 + k := by omega
        rw [harith] at this
        exact this
    · rw [verifyFrom, if_neg hc]
      simp only [reduceCtorEq, false_iff, not_forall]
      exact ⟨0, by omega, by simpa using hc⟩

theorem verifyFrom_error_at (st : Storage) (tol : ℚ) (fm : FilterMode)
    (am : AddressingMode) (observed : ℕ → ℚ) (data : Level) (width : ℕ)
    (level offsetX : ℚ) :
    ∀ n i j, i ≤ j → j < i + n →
      checkIndex st tol fm am observed data width offsetX j = false →
      (∀ m, i ≤ m → m < j → checkIndex st tol fm am observed data width offsetX m = true) →
      verifyFrom st tol fm am observed data width level offsetX i n =
        .error ⟨level, j, (j : ℚ) + offsetX, observed j,
          getExpectedValue fm am width ((j : ℚ) + offsetX) data,
          data.getD j 0⟩ := by
  intro n
  induction n with
  | zero =>
    intro i j h1 h2 _ _
    omega
  | succ n ih =>
    intro i j h1 h2 hbad hprev
    by_cases hc : checkIndex st tol fm am observed data width offsetX i = true
    · have hij : i ≠ j := by
        intro he
        rw [he, hbad] at hc
        exact absurd hc (by decide)
      rw [verifyFrom, if_pos hc]
      exact ih (i + 1) j (by omega) (by omega) hbad
        (fun m hm1 hm2 => hprev m (by omega) hm2)
    · have hij : i = j := by
        by_contra hne
        have : i < j := by omega
        exact hc (hprev i (Nat.le_refl i) this)
      subst hij
      rw [verifyFrom, if_neg hc]

/-- C6: every index of a level is checked (verification succeeds exactly when
every comparison matches: no mismatch is silently swallowed), and the first
mismatching index produces a hard failure carrying the full context: level,
index and coordinate, device output, CPU expected value, and source data. -/
theorem first_mismatch_reported_fatal (st : Storage) (tol : ℚ)
    (fm : FilterMode) (am : AddressingMode) (observed : ℕ → ℚ) (data : Level)
    (width : ℕ) (level offsetX : ℚ) :
    (verifyMipmapLevel st tol fm am observed data width level offsetX = .ok () ↔
      ∀ i, i < width → checkIndex st tol fm am observed data width offsetX i = true) ∧
    (∀ i, i < width →
      checkIndex st tol fm am observed data width offsetX i = false →
      (∀ j, j < i → checkIndex st tol fm am observed data width offsetX j = true) →
      verifyMipmapLevel st tol fm am observed data width level offsetX =
        .error ⟨level, i, (i : ℚ) + offsetX, observed i,
          getExpectedValue fm am width ((i : ℚ) + offsetX) data,
          data.getD i 0⟩) := by
  constructor
  · rw [verifyMipmapLevel, verifyFrom_ok_iff]
    constructor
    · intro h i hi
      simpa using h i hi
    · intro h k hk
      simpa using h k hk
  · intro i hi hbad hprev
    exact verifyFrom_error_at st tol fm am observed data width level offsetX
      width 0 i (Nat.zero_le i) (by omega) hbad (fun m _ hm => hprev m hm)

/-- Witness for C6: level data [1, 2] with every observed sample 5 under
integer storage; the very first index mismatches and is reported. -/
theorem first_mismatch_reported_fatal_witness :
    verifyMipmapLevel .integer 0 .point .clamp (fun _ => 5) [1, 2] 2 0 0 =
      .error ⟨0, 0, ((0 : ℕ) : ℚ) + 0, (fun _ => (5 : ℚ)) 0,
        getExpectedValue .point .clamp 2 (((0 : ℕ) : ℚ) + 0) [1, 2],
        [1, 2].getD 0 0⟩ := by
  have hbad : checkIndex .integer 0 .point .clamp (fun _ => 5) [1, 2] 2 0 0 = false := by
    simp [checkIndex, hipTextureSamplingVerify, getExpectedValue, sample,
      sampleNearest, texelAt, resolve]
  exact (first_mismatch_reported_fatal .integer 0 .point .clamp (fun _ => 5)
    [1, 2] 2 0 0).2 0 (by decide) hbad
    (fun j hj => absurd hj (by omega))

/-- C10: both device kernels only write under the x < width guard: a written
surface or output-array index is always in [0, width), and a thread with
x ≥ width writes nothing at all. -/
theorem kernel_writes_guarded (rm : ReadMode) (conv deconv : ℚ → ℚ)
    (fm : FilterMode) (am : AddressingMode) (src : Level) (srcWidth : ℕ)
    (chain : List Level) (width x : ℕ) (offsetX : ℚ) (lod : ℕ) :
    (∀ p ∈ populateMipmapNextLevelArray rm conv deconv fm am src srcWidth width x,
      p.1 < width) ∧
    (width ≤ x →
      populateMipmapNextLevelArray rm conv deconv fm am src srcWidth width x = none) ∧
    (∀ p ∈ getMipmap fm am chain width x offsetX lod, p.1 < width) ∧
    (width ≤ x → getMipmap fm am chain width x offsetX lod = none) := by
  refine ⟨?_, ?_, ?_, ?_⟩
  · intro p hp
    by_cases hx : x < width
    · cases rm <;> simp [populateMipmapNextLevelArray, hx] at hp <;>
        (rw [← hp]; exact hx)
    · cases rm <;> simp [populateMipmapNextLevelArray, hx] at hp
  · intro hx
    cases rm <;> simp [populateMipmapNextLevelArray, show ¬x < width from by omega]
  · intro p hp
    by_cases hx : x < width
    · simp [getMipmap, hx] at hp
      rw [← hp]
      exact hx
    · simp [getMipmap, hx] at hp
  · intro hx
    simp [getMipmap, show ¬x < width from by omega]

/-- Witness for C10: out-of-range thread 5 against width 2 writes nothing in
either kernel. -/
theorem kernel_writes_guarded_witness :
    populateMipmapNextLevelArray .elementType id id .point .clamp [1] 1 2 5 = none ∧
    getMipmap .point .clamp [[1]] 2 5 0 0 = none :=
  ⟨(kernel_writes_guarded .elementType id id .point .clamp [1] 1 [[1]] 2 5 0 0).2.1
      (by decide),
    (kernel_writes_guarded .elementType id id .point .clamp [1] 1 [[1]] 2 5 0 0).2.2.2
      (by decide)⟩

end HipTextureMipmapObj1D
